import Mathlib

/-!
# image-proxy: a verification development for `main.go`

The proxy fetches an image from an origin server, converts it to grayscale and
writes it back, all under a five second deadline.  This file embeds the
functions of `main.go` together with the parts of the Go standard library they
call (`image`, `image/color`, the response writer, the channel handoff) and
proves properties of that embedding.

Conventions:
* Go's fixed-width unsigned integers are natural numbers, reduced with an
  explicit `%` wherever Go truncates (`uint8`, `uint16`, `uint32`).
* Go's `int` is the 64-bit signed integer: coordinates are `Int` values in
  `[-2^63, 2^63)`, and `wrapInt` reduces the result of `int` arithmetic that
  can overflow.  Running out of memory is not modelled.
* A Go panic is `none`.
* A nil `error` is `none`.
-/

namespace ImageProxy

/-! ## Package `image/color` -/

namespace color

/-- Values of the interface `color.Color`.  `Gray16Model.Convert` and
`RGBAModel.Convert` test for the dynamic types `color.Gray16` and `color.RGBA`,
so these two have constructors of their own; every other implementation is
given by what its `RGBA()` method returns (four `uint32`). -/
inductive Color where
  | RGBA (R G B A : Nat)
  | Gray16 (Y : Nat)
  | Other (r g b a : Nat)
  deriving DecidableEq, Repr

/-- The method `RGBA()`.
For `color.RGBA`: `r = uint32(c.R); r |= r << 8` and likewise for g, b, a.
For `color.Gray16`: `y := uint32(c.Y); return y, y, y, 0xffff`. -/
def Color.rgba : Color → Nat × Nat × Nat × Nat
  | .RGBA R G B A =>
      ((R % 256) ||| ((R % 256) <<< 8), (G % 256) ||| ((G % 256) <<< 8),
       (B % 256) ||| ((B % 256) <<< 8), (A % 256) ||| ((A % 256) <<< 8))
  | .Gray16 Y => (Y % 65536, Y % 65536, Y % 65536, 0xffff)
  | .Other r g b a => (r % 2 ^ 32, g % 2 ^ 32, b % 2 ^ 32, a % 2 ^ 32)

/-- The function behind `color.Gray16Model.Convert`:
```go
if _, ok := c.(Gray16); ok { return c }
r, g, b, _ := c.RGBA()
y := (19595*r + 38470*g + 7471*b + 1<<15) >> 16
return Gray16{uint16(y)}
```
with `uint32` arithmetic. -/
def gray16Model (c : Color) : Color :=
  match c with
  | .Gray16 Y => .Gray16 Y
  | c =>
    match c.rgba with
    | (r, g, b, _) =>
      let y := ((19595 * r + 38470 * g + 7471 * b + (1 <<< 15)) % 2 ^ 32) >>> 16
      .Gray16 (y % 65536)

/-- The function behind `color.RGBAModel.Convert`, returning the four fields of
the resulting `color.RGBA`:
```go
if _, ok := c.(RGBA); ok { return c }
r, g, b, a := c.RGBA()
return RGBA{uint8(r >> 8), uint8(g >> 8), uint8(b >> 8), uint8(a >> 8)}
``` -/
def rgbaModel (c : Color) : Nat × Nat × Nat × Nat :=
  match c with
  | .RGBA R G B A => (R % 256, G % 256, B % 256, A % 256)
  | c =>
    match c.rgba with
    | (r, g, b, a) => ((r >>> 8) % 256, (g >>> 8) % 256, (b >>> 8) % 256, (a >>> 8) % 256)

/-- A colour whose fields fit their Go types and whose `RGBA()` channels lie in
`[0, 0xffff]`, as the documentation of `color.Color` requires. -/
def Color.WellFormed : Color → Prop
  | .RGBA R G B A => R < 256 ∧ G < 256 ∧ B < 256 ∧ A < 256
  | .Gray16 Y => Y < 65536
  | .Other r g b a => r < 65536 ∧ g < 65536 ∧ b < 65536 ∧ a < 65536

instance (c : Color) : Decidable c.WellFormed := by
  cases c <;> unfold Color.WellFormed <;> infer_instance

end color

/-! ## Package `image` -/

namespace image

open color

/-- Go: `image.Point`. -/
structure Point where
  X : Int
  Y : Int
  deriving DecidableEq, Repr

/-- Go: `image.Rectangle`. -/
structure Rectangle where
  Min : Point
  Max : Point
  deriving DecidableEq, Repr

/-- The value of a Go `int` (64 bits, two's complement) after an arithmetic
result `z` has wrapped around: the representative of `z` modulo `2^64` in
`[-2^63, 2^63)`. -/
def wrapInt (z : Int) : Int :=
  (z + 9223372036854775808) % 18446744073709551616 - 9223372036854775808

/-- The integer `z` is a value of Go's `int`. -/
def isInt (z : Int) : Prop := -9223372036854775808 ≤ z ∧ z < 9223372036854775808

instance (z : Int) : Decidable (isInt z) := by
  unfold isInt; infer_instance

/-- Go: `func (r Rectangle) Dx() int { return r.Max.X - r.Min.X }`, an `int`
subtraction. -/
def Rectangle.Dx (r : Rectangle) : Int := wrapInt (r.Max.X - r.Min.X)

/-- Go: `func (r Rectangle) Dy() int { return r.Max.Y - r.Min.Y }`, an `int`
subtraction. -/
def Rectangle.Dy (r : Rectangle) : Int := wrapInt (r.Max.Y - r.Min.Y)

/-- The four coordinates of the rectangle are values of Go's `int`. -/
def Rectangle.InIntRange (r : Rectangle) : Prop :=
  isInt r.Min.X ∧ isInt r.Min.Y ∧ isInt r.Max.X ∧ isInt r.Max.Y

instance (r : Rectangle) : Decidable r.InIntRange := by
  unfold Rectangle.InIntRange; infer_instance

/-- Go: `func (p Point) In(r Rectangle) bool`. -/
def Point.In (p : Point) (r : Rectangle) : Prop :=
  r.Min.X ≤ p.X ∧ p.X < r.Max.X ∧ r.Min.Y ≤ p.Y ∧ p.Y < r.Max.Y

instance (p : Point) (r : Rectangle) : Decidable (p.In r) := by
  unfold Point.In; infer_instance

/-- A rectangle is well-formed when `Min.X ≤ Max.X` and `Min.Y ≤ Max.Y`
(documentation of `image.Rectangle`). -/
def Rectangle.WellFormed (r : Rectangle) : Prop :=
  r.Min.X ≤ r.Max.X ∧ r.Min.Y ≤ r.Max.Y

instance (r : Rectangle) : Decidable r.WellFormed := by
  unfold Rectangle.WellFormed; infer_instance

/-- The interface `image.Image`, by its methods `Bounds` and `At`
(`ColorModel` is not called by the program). -/
structure Image where
  Bounds : Rectangle
  At : Int → Int → Color

/-- Go: `image.RGBA`, an in-memory image: `Pix` holds the pixels in R, G, B, A
order, `Stride` is the distance in bytes between vertically adjacent pixels. -/
structure RGBA where
  Pix : List Nat
  Stride : Int
  Rect : Rectangle
  deriving DecidableEq, Repr

/-- Go: `image.mul3NonNeg`, the product `x*y*z` unless an argument is negative
or the product overflows an `int`, in which case it is -1:
```go
if (x < 0) || (y < 0) || (z < 0) { return -1 }
hi, lo := bits.Mul64(uint64(x), uint64(y))
if hi != 0 { return -1 }
hi, lo = bits.Mul64(lo, uint64(z))
if hi != 0 { return -1 }
a := int(lo)
if (a < 0) || (uint64(a) != lo) { return -1 }
return a
``` -/
def mul3NonNeg (x y z : Int) : Int :=
  if x < 0 ∨ y < 0 ∨ z < 0 then -1
  else if (x * y) / 18446744073709551616 ≠ 0 then -1
  else if ((x * y) % 18446744073709551616 * z) / 18446744073709551616 ≠ 0 then -1
  else
    let lo := ((x * y) % 18446744073709551616 * z) % 18446744073709551616
    let a := wrapInt lo
    if a < 0 ∨ a % 18446744073709551616 ≠ lo then -1 else a

/-- Go: `image.pixelBufferLength`:
```go
totalLength := mul3NonNeg(bytesPerPixel, r.Dx(), r.Dy())
if totalLength < 0 { panic("image: New" + imageTypeName + " Rectangle has huge or negative dimensions") }
return totalLength
``` -/
def pixelBufferLength (bytesPerPixel : Int) (r : Rectangle) : Option Int :=
  if mul3NonNeg bytesPerPixel r.Dx r.Dy < 0 then none
  else some (mul3NonNeg bytesPerPixel r.Dx r.Dy)

/-- Go: `image.NewRGBA`:
```go
return &RGBA{Pix: make([]uint8, pixelBufferLength(4, r, "RGBA")), Stride: 4 * r.Dx(), Rect: r}
```
It panics when the rectangle has a negative width or height or when `4*w*h`
overflows an `int`; otherwise the buffer is `4*w*h` zero bytes. -/
def NewRGBA (r : Rectangle) : Option RGBA :=
  match pixelBufferLength 4 r with
  | none => none
  | some n => some { Pix := List.replicate n.toNat 0, Stride := wrapInt (4 * r.Dx), Rect := r }

/-- Go: `func (p *RGBA) PixOffset(x, y int) int`, namely
`(y-p.Rect.Min.Y)*p.Stride + (x-p.Rect.Min.X)*4` in `int` arithmetic. -/
def RGBA.PixOffset (p : RGBA) (x y : Int) : Int :=
  wrapInt ((y - p.Rect.Min.Y) * p.Stride + (x - p.Rect.Min.X) * 4)

/-- Go: `func (p *RGBA) Set(x, y int, c color.Color)`: a point outside `p.Rect`
is ignored, otherwise the four bytes at `PixOffset(x, y)` are overwritten with
`color.RGBAModel.Convert(c)`. -/
def RGBA.Set (p : RGBA) (x y : Int) (c : Color) : RGBA :=
  if ¬ (Point.mk x y).In p.Rect then p
  else
    let i := (p.PixOffset x y).toNat
    match rgbaModel c with
    | (r, g, b, a) =>
      { p with Pix := (((p.Pix.set i r).set (i + 1) g).set (i + 2) b).set (i + 3) a }

/-- Go: `func (p *RGBA) At(x, y int) color.Color` (through `RGBAAt`): the zero
`color.RGBA` outside `p.Rect`, otherwise the four bytes at `PixOffset(x, y)`. -/
def RGBA.At (p : RGBA) (x y : Int) : Color :=
  if ¬ (Point.mk x y).In p.Rect then .RGBA 0 0 0 0
  else
    let i := (p.PixOffset x y).toNat
    .RGBA (p.Pix.getD i 0) (p.Pix.getD (i + 1) 0) (p.Pix.getD (i + 2) 0) (p.Pix.getD (i + 3) 0)

/-- The representation invariant of an `*image.RGBA` built by `NewRGBA`: unless
the rectangle contains no point, the stride is four times the width, the buffer
holds four bytes for each point, and its length is an `int`. -/
def RGBA.Valid (p : RGBA) : Prop :=
  p.Rect.Max.X ≤ p.Rect.Min.X ∨ p.Rect.Max.Y ≤ p.Rect.Min.Y ∨
    (p.Stride = 4 * (p.Rect.Max.X - p.Rect.Min.X) ∧
      (p.Pix.length : Int)
        = 4 * (p.Rect.Max.X - p.Rect.Min.X) * (p.Rect.Max.Y - p.Rect.Min.Y) ∧
      4 * (p.Rect.Max.X - p.Rect.Min.X) * (p.Rect.Max.Y - p.Rect.Min.Y)
        < 9223372036854775808)

/-- The rectangles `image.NewRGBA` accepts: well-formed, with `int` coordinates,
a width below `2^62`, a height below `2^63`, and `4*w*h` below `2^63`. -/
def Rectangle.Allocatable (r : Rectangle) : Prop :=
  r.InIntRange ∧ r.WellFormed ∧
    r.Max.X - r.Min.X < 4611686018427387904 ∧
    r.Max.Y - r.Min.Y < 9223372036854775808 ∧
    4 * (r.Max.X - r.Min.X) * (r.Max.Y - r.Min.Y) < 9223372036854775808

instance (r : Rectangle) : Decidable r.Allocatable := by
  unfold Rectangle.Allocatable; infer_instance

/-- An `*image.RGBA` used as an `image.Image`. -/
def RGBA.toImage (p : RGBA) : Image := { Bounds := p.Rect, At := p.At }

end image

open color image

/-! ## `main.go`: the transform -/

/-- The inner loop of `grayscale`:
`for x := 0; x < bounds.Max.X; x++ { new.Set(x, y, color.Gray16Model.Convert(old.At(x, y))) }`. -/
def grayscaleRow (old : Image) (y : Int) (new : RGBA) : RGBA :=
  (List.range old.Bounds.Max.X.toNat).foldl
    (fun (im : RGBA) (x : Nat) => im.Set (x : Int) y (gray16Model (old.At (x : Int) y))) new

/-- Source `grayscale` (main.go, lines 132-143):
```go
bounds := old.Bounds()
new := image.NewRGBA(bounds)
for y := 0; y < bounds.Max.Y; y++ {
  for x := 0; x < bounds.Max.X; x++ {
    new.Set(x, y, color.Gray16Model.Convert(old.At(x, y)))
  }
}
return new
```
Both loops start at 0, not at `bounds.Min`. -/
def grayscale (old : Image) : Option RGBA :=
  match NewRGBA old.Bounds with
  | none => none
  | some new =>
    some ((List.range old.Bounds.Max.Y.toNat).foldl
      (fun (im : RGBA) (y : Nat) => grayscaleRow old (y : Int) im) new)

/-- The colour `grayscale` stores for a source colour `c`:
`color.RGBAModel.Convert(color.Gray16Model.Convert(c))`. -/
def grayPixel (c : Color) : Color :=
  match rgbaModel (gray16Model c) with
  | (r, g, b, a) => .RGBA r g b a

/-- A 10x10 opaque red image with bounds (0,0)-(10,10). -/
def redImage : Image :=
  { Bounds := ⟨⟨0, 0⟩, ⟨10, 10⟩⟩, At := fun _ _ => .RGBA 255 0 0 255 }

/-- An opaque white image with the bounds of Go's `image.Uniform`,
(-1e9,-1e9)-(1e9,1e9). -/
def hugeImage : Image :=
  { Bounds := ⟨⟨-1000000000, -1000000000⟩, ⟨1000000000, 1000000000⟩⟩,
    At := fun _ _ => .RGBA 255 255 255 255 }

/-- A 2x2 opaque white image with bounds (-1,-1)-(1,1). -/
def offsetImage : Image :=
  { Bounds := ⟨⟨-1, -1⟩, ⟨1, 1⟩⟩, At := fun _ _ => .RGBA 255 255 255 255 }

/-! ## Errors, origin responses, the response writer -/

/-- Values of Go's `error` interface that the program handles: its own
`originResponseError`, and any other error value, given by its `Error()` text
(what `http.Client.Do`, `image.Decode`, the encoders, the response writer and
the context return). -/
inductive GoError where
  | originResponseError (err : String)
  | other (msg : String)
  deriving DecidableEq, Repr

/-- The method `Error()`; for `originResponseError` it is `return e.err`
(main.go, lines 45-47). -/
def GoError.Error : GoError → String
  | .originResponseError err => err
  | .other msg => msg

/-- Go: `context.DeadlineExceeded`, what `ctx.Err()` returns once the context
made by `context.WithTimeout(context.Background(), timeout)` is done. -/
def DeadlineExceeded : GoError := .other "context deadline exceeded"

/-- The stream `res.Body` (an `io.ReadCloser`): the bytes it holds, the error a
read runs into (if any), and how many times `Close` has been called on it. -/
structure ReadCloser where
  content : String
  readErr : Option String
  closed : Nat
  deriving DecidableEq, Repr

/-- Go: `Body.Close()`. -/
def ReadCloser.Close (b : ReadCloser) : ReadCloser := { b with closed := b.closed + 1 }

/-- Go: `ioutil.ReadAll`: all bytes of the stream, or the read error. -/
def ReadAll (b : ReadCloser) : Except GoError String :=
  match b.readErr with
  | some e => .error (.other e)
  | none => .ok b.content

/-- Go: `*http.Response`, by the two fields the program reads. -/
structure Response where
  StatusCode : Nat
  Body : ReadCloser
  deriving DecidableEq, Repr

/-- The codecs the program imports, as a provided capability: `image.Decode`
(with the `jpeg` and `png` decoders registered) returns an image and its format
name or fails with a message; `jpeg.Encode` and `png.Encode` return the encoded
bytes or fail with a message.  The encoders receive the interface value as it
is, nil included; what they do with a nil image is left to them. -/
structure Codec where
  Decode : ReadCloser → Except String (Image × String)
  jpegEncode : Option Image → Except String String
  pngEncode : Option Image → Except String String

/-- Source (main.go, lines 29-32): `type convertedImage struct`.  The field
`image` is an interface value and may be nil. -/
structure convertedImage where
  image : Option Image
  format : String

/-- Source (main.go, lines 36-39): `type conversionResult struct`. -/
structure conversionResult where
  converted : convertedImage
  err : Option GoError

/-- The zero value of `conversionResult` (`var c conversionResult`). -/
def conversionResult.zero : conversionResult :=
  { converted := { image := none, format := "" }, err := none }

/-- An `http.ResponseWriter`, as a recorder: the header map, the status code
sent (none while no header has been written), the body bytes written, and the
error `Write` runs into when the connection is gone. -/
structure ResponseWriter where
  header : List (String × String)
  status : Option Nat
  body : String
  writeErr : Option String
  deriving DecidableEq, Repr

/-- A writer as the server hands it to the handler. -/
def ResponseWriter.fresh : ResponseWriter :=
  { header := [], status := none, body := "", writeErr := none }

/-- Go: `w.Header().Set(key, value)`. -/
def ResponseWriter.SetHeader (w : ResponseWriter) (key value : String) : ResponseWriter :=
  { w with header := (key, value) :: w.header.filter (fun kv => kv.1 != key) }

/-- Go: `w.Header().Get(key)`. -/
def ResponseWriter.GetHeader (w : ResponseWriter) (key : String) : Option String :=
  (w.header.find? (fun kv => kv.1 == key)).map (fun kv => kv.2)

/-- Go: `w.WriteHeader(code)`: the first call fixes the status, later calls are
superfluous and change nothing. -/
def ResponseWriter.WriteHeader (w : ResponseWriter) (code : Nat) : ResponseWriter :=
  match w.status with
  | none => { w with status := some code }
  | some _ => w

/-- Go: `w.Write(b)`: if no header has been written, status 200 is sent first;
then the bytes are appended, or the write error is returned. -/
def ResponseWriter.Write (w : ResponseWriter) (b : String) : ResponseWriter × Option GoError :=
  let w1 := w.WriteHeader 200
  match w1.writeErr with
  | some e => (w1, some (.other e))
  | none => ({ w1 with body := w1.body ++ b }, none)

/-- Go: `fmt.Fprint(w, err)` for a non-nil error: writes `err.Error()`; the
result of the write is dropped. -/
def ResponseWriter.Fprint (w : ResponseWriter) (err : GoError) : ResponseWriter :=
  (w.Write err.Error).1

/-! ## `main.go`: the pipeline and the handler -/

/-- Source `convert` (main.go, lines 105-130).  The second component is the
response after the call (its body carries the close counter).
```go
if err != nil { return conversionResult{err: err} }
if res.StatusCode != http.StatusOK {
  b, err := ioutil.ReadAll(res.Body)
  if err != nil { return conversionResult{err: originResponseError{err: err.Error()}} }
  return conversionResult{err: originResponseError{err: string(b)}}
}
defer res.Body.Close()
img, format, err := image.Decode(res.Body)
if err != nil { return conversionResult{err: err} }
return conversionResult{converted: convertedImage{image: grayscale(img), format: format}, err: nil}
```
A nil `res` with a nil `err` is a nil dereference, and `grayscale` may panic:
both are `none`. -/
def convert (cd : Codec) (res : Option Response) (err : Option GoError) :
    Option (conversionResult × Option Response) :=
  match err with
  | some e => some ({ converted := { image := none, format := "" }, err := some e }, res)
  | none =>
    match res with
    | none => none
    | some res =>
      if res.StatusCode ≠ 200 then
        match ReadAll res.Body with
        | .error e =>
          some ({ converted := { image := none, format := "" },
                  err := some (.originResponseError e.Error) }, some res)
        | .ok b =>
          some ({ converted := { image := none, format := "" },
                  err := some (.originResponseError b) }, some res)
      else
        match cd.Decode res.Body with
        | .error e =>
          some ({ converted := { image := none, format := "" }, err := some (.other e) },
                some { res with Body := res.Body.Close })
        | .ok (img, format) =>
          match grayscale img with
          | none => none
          | some g =>
            some ({ converted := { image := some g.toImage, format := format }, err := none },
                  some { res with Body := res.Body.Close })

/-- Source `sendOriginRequest` (main.go, lines 158-161): the value the
background task offers on the channel, `convert(http.DefaultClient.Do(req))`,
where `(res, err)` is what `Do` returned. -/
def sendOriginRequest (cd : Codec) (res : Option Response) (err : Option GoError) :
    Option conversionResult :=
  (convert cd res err).map (fun p => p.1)

/-- The case of the `select` in `convertWithContext` that fires. -/
inductive SelectCase where
  | ctxDone
  | done
  deriving DecidableEq, Repr

/-- Source `convertWithContext` (main.go, lines 145-156), as a function of the
select case that fires and of what the background task sends:
```go
select {
case <-ctx.Done():
  var c conversionResult
  return c, ctx.Err()
case r := <-done:
  return r, nil
}
``` -/
def convertWithContext (sel : SelectCase) (sent : Option conversionResult) :
    Option (conversionResult × Option GoError) :=
  match sel with
  | .ctxDone => some (conversionResult.zero, some DeadlineExceeded)
  | .done =>
    match sent with
    | none => none
    | some r => some (r, none)

/-- Source `writeConvertedImage` (main.go, lines 163-181):
```go
buf := new(bytes.Buffer)
switch format {
case "jpeg": if err := jpeg.Encode(buf, img, nil); err != nil { return err }
case "png":  if err := png.Encode(buf, img); err != nil { return err }
}
w.Header().Set("Content-Type", fmt.Sprintf("image/%s", format))
w.Header().Set("Content-Length", strconv.Itoa(len(buf.Bytes())))
if _, err := w.Write(buf.Bytes()); err != nil { return err }
return nil
```
The switch has no default case. -/
def writeConvertedImage (cd : Codec) (w : ResponseWriter) (img : Option Image)
    (format : String) : ResponseWriter × Option GoError :=
  let encoded : Except String String :=
    if format = "jpeg" then cd.jpegEncode img
    else if format = "png" then cd.pngEncode img
    else .ok ""
  match encoded with
  | .error e => (w, some (.other e))
  | .ok buf =>
    let w1 := w.SetHeader "Content-Type" ("image/" ++ format)
    let w2 := w1.SetHeader "Content-Length" (toString buf.utf8ByteSize)
    w2.Write buf

/-- Source `handleGetImage` (main.go, lines 75-103).  `newRequestErr` is the
error of `http.NewRequest`, `(res, fetchErr)` what `http.DefaultClient.Do`
returns to the background task, `sel` the select case that fires.
```go
r, err := http.NewRequest("GET", fmt.Sprintf("%s%s", origin, req.URL.Path), nil)
if err != nil { w.WriteHeader(http.StatusInternalServerError); fmt.Fprint(w, err); return }
result, err := convertWithContext(ctx, r, convert)
if err != nil { w.WriteHeader(http.StatusRequestTimeout); fmt.Fprint(w, err); return }
if result.err != nil { w.WriteHeader(http.StatusBadRequest); fmt.Fprint(w, result.err); return }
if err = writeConvertedImage(w, result.converted.image, result.converted.format); err != nil {
  w.WriteHeader(http.StatusInternalServerError); fmt.Fprint(w, err)
}
``` -/
def handleGetImage (cd : Codec) (w : ResponseWriter) (newRequestErr : Option GoError)
    (sel : SelectCase) (res : Option Response) (fetchErr : Option GoError) :
    Option ResponseWriter :=
  match newRequestErr with
  | some e => some ((w.WriteHeader 500).Fprint e)
  | none =>
    match convertWithContext sel (sendOriginRequest cd res fetchErr) with
    | none => none
    | some (_, some err) => some ((w.WriteHeader 408).Fprint err)
    | some (result, none) =>
      match result.err with
      | some e => some ((w.WriteHeader 400).Fprint e)
      | none =>
        match writeConvertedImage cd w result.converted.image result.converted.format with
        | (w1, some e) => some ((w1.WriteHeader 500).Fprint e)
        | (w1, none) => some w1

/-! ## The handoff between `sendOriginRequest` and `convertWithContext`

The two goroutines, the channel `done` and the context, as a transition system.
A channel of capacity `cap` accepts a send without a receiver while fewer than
`cap` values are buffered; with nothing buffered, a send can also complete by
meeting a receiver that is waiting on the channel. -/

/-- Go: a `chan conversionResult`: its capacity and the values it buffers. -/
structure Chan where
  cap : Nat
  buf : List conversionResult

/-- Where the goroutine running `convertWithContext` is: waiting in the
`select`, or returned with its two results. -/
inductive Coordinator where
  | selecting
  | returned (r : conversionResult) (err : Option GoError)

/-- Where the goroutine running `sendOriginRequest` is: evaluating
`convert(http.DefaultClient.Do(req))`, at the send `done <- r`, or finished. -/
inductive Producer where
  | running
  | sending (r : conversionResult)
  | exited

/-- The state of one request's handoff. -/
structure Handoff where
  ctxExpired : Bool
  done : Chan
  coordinator : Coordinator
  producer : Producer

/-- The state right after `go sendOriginRequest(req, convert, done)`, with
`done := make(chan conversionResult)` (main.go, line 146): no buffer. -/
def Handoff.init : Handoff :=
  { ctxExpired := false, done := { cap := 0, buf := [] },
    coordinator := .selecting, producer := .running }

/-- The events of the system. -/
inductive Action where
  | expire
  | compute
  | sendBuffered
  | rendezvous
  | recvBuffered
  | timeout
  deriving DecidableEq, Repr

/-- One event, `none` when it is not enabled.  `produced` is the value of
`convert(http.DefaultClient.Do(req))`.
* `expire`: the deadline passes and `ctx.Done()` is closed.
* `compute`: the producer has its value and reaches `done <- r`.
* `sendBuffered`: the send completes into free buffer space.
* `rendezvous`: the send meets the coordinator waiting in `case r := <-done`.
* `recvBuffered`: the coordinator takes a buffered value in `case r := <-done`.
* `timeout`: the coordinator takes `case <-ctx.Done()`. -/
def Handoff.step (produced : conversionResult) (a : Action) (s : Handoff) : Option Handoff :=
  match a with
  | .expire => if s.ctxExpired then none else some { s with ctxExpired := true }
  | .compute =>
    match s.producer with
    | .running => some { s with producer := .sending produced }
    | _ => none
  | .sendBuffered =>
    match s.producer with
    | .sending r =>
      if s.done.buf.length < s.done.cap then
        some { s with done := { s.done with buf := s.done.buf ++ [r] }, producer := .exited }
      else none
    | _ => none
  | .rendezvous =>
    match s.producer, s.coordinator, s.done.buf with
    | .sending r, .selecting, [] =>
      some { s with producer := .exited, coordinator := .returned r none }
    | _, _, _ => none
  | .recvBuffered =>
    match s.coordinator, s.done.buf with
    | .selecting, r :: rest =>
      some { s with done := { s.done with buf := rest }, coordinator := .returned r none }
    | _, _ => none
  | .timeout =>
    match s.coordinator with
    | .selecting =>
      if s.ctxExpired then
        some { s with coordinator := .returned conversionResult.zero (some DeadlineExceeded) }
      else none
    | _ => none

/-- A schedule: the events in the order they happen; `none` when one of them
is not enabled at its turn. -/
def Handoff.run (produced : conversionResult) : List Action → Handoff → Option Handoff
  | [], s => some s
  | a :: as, s =>
    match Handoff.step produced a s with
    | none => none
    | some s1 => Handoff.run produced as s1

/-- The producer has finished (`sendOriginRequest` returned). -/
def Producer.isExited : Producer → Bool
  | .exited => true
  | _ => false

/-- The coordinator received the producer's value. -/
def Coordinator.received : Coordinator → Bool
  | .returned _ none => true
  | _ => false

/-- What holds in every state the request can reach: the channel has no buffer
and holds nothing, and the producer has finished only if the coordinator
received its value. -/
def Handoff.Inv (s : Handoff) : Prop :=
  s.done.cap = 0 ∧ s.done.buf = [] ∧
    (s.producer.isExited = true → s.coordinator.received = true)

/-- The coordinator returned the timeout outcome. -/
def Coordinator.timedOut : Coordinator → Bool
  | .returned _ (some _) => true
  | _ => false

/-- A codec for examples: the body "RED" decodes to `redImage` in format "png",
anything else is not an image; both encoders succeed. -/
def exampleCodec : Codec :=
  { Decode := fun b =>
      if b.content = "RED" then .ok (redImage, "png") else .error "image: unknown format"
    jpegEncode := fun _ => .ok "JPEGDATA"
    pngEncode := fun _ => .ok "PNGDATA" }

/-! # Theorems -/

/-! ## Lemmas on `image.RGBA` -/

theorem getD_set4_ne (l : List Nat) (i j a b c d : Nat) (h : j < i ∨ i + 4 ≤ j) :
    ((((l.set i a).set (i + 1) b).set (i + 2) c).set (i + 3) d).getD j 0 = l.getD j 0 := by
  simp only [List.getD_eq_getElem?_getD, List.getElem?_set, List.length_set]
  rw [if_neg (by omega), if_neg (by omega), if_neg (by omega), if_neg (by omega)]

theorem getD_set4_eq (l : List Nat) (i a b c d : Nat) (h : i + 3 < l.length) :
    ((((l.set i a).set (i + 1) b).set (i + 2) c).set (i + 3) d).getD i 0 = a ∧
    ((((l.set i a).set (i + 1) b).set (i + 2) c).set (i + 3) d).getD (i + 1) 0 = b ∧
    ((((l.set i a).set (i + 1) b).set (i + 2) c).set (i + 3) d).getD (i + 2) 0 = c ∧
    ((((l.set i a).set (i + 1) b).set (i + 2) c).set (i + 3) d).getD (i + 3) 0 = d := by
  have h0 : i < l.length := by omega
  have h1 : i + 1 < l.length := by omega
  have h2 : i + 2 < l.length := by omega
  simp [List.getD_eq_getElem?_getD, List.getElem?_set, h0, h1, h2, h]

theorem wrapInt_eq {z : Int} (h0 : -9223372036854775808 ≤ z) (h1 : z < 9223372036854775808) :
    wrapInt z = z := by
  unfold wrapInt
  omega

/-- What `mul3NonNeg 4 y z` computes when it does not return -1. -/
theorem mul3NonNeg_nonneg {y z : Int} (h : 0 ≤ mul3NonNeg 4 y z) :
    0 ≤ y ∧ 0 ≤ z ∧ 4 * y < 18446744073709551616 ∧ 4 * y * z < 9223372036854775808 ∧
      mul3NonNeg 4 y z = 4 * y * z := by
  unfold mul3NonNeg at h ⊢
  by_cases h1 : (4 : Int) < 0 ∨ y < 0 ∨ z < 0
  · rw [if_pos h1] at h; omega
  rw [if_neg h1] at h ⊢
  have hy : 0 ≤ y := by omega
  have hz : 0 ≤ z := by omega
  by_cases h2 : (4 * y) / 18446744073709551616 ≠ 0
  · rw [if_pos h2] at h; omega
  rw [if_neg h2] at h ⊢
  have hy4 : 4 * y < 18446744073709551616 := by omega
  have hmod : (4 * y) % 18446744073709551616 = 4 * y := by omega
  rw [hmod] at h ⊢
  have hP : 0 ≤ 4 * y * z := mul_nonneg (by omega) hz
  generalize 4 * y * z = P at h hP ⊢
  by_cases h3 : P / 18446744073709551616 ≠ 0
  · rw [if_pos h3] at h; omega
  rw [if_neg h3] at h ⊢
  have hP2 : P < 18446744073709551616 := by omega
  have hmodP : P % 18446744073709551616 = P := by omega
  simp only [hmodP] at h ⊢
  by_cases h4 : wrapInt P < 0 ∨ wrapInt P % 18446744073709551616 ≠ P
  · rw [if_pos h4] at h; omega
  rw [if_neg h4] at h ⊢
  have hP3 : P < 9223372036854775808 := by
    unfold wrapInt at h4
    omega
  exact ⟨hy, hz, hy4, hP3, wrapInt_eq (by omega) hP3⟩

/-- The converse: within these limits `mul3NonNeg 4 y z` is the product. -/
theorem mul3NonNeg_eq {y z : Int} (hy : 0 ≤ y) (hz : 0 ≤ z)
    (hy4 : 4 * y < 18446744073709551616) (hP3 : 4 * y * z < 9223372036854775808) :
    mul3NonNeg 4 y z = 4 * y * z := by
  unfold mul3NonNeg
  rw [if_neg (by omega)]
  rw [if_neg (by omega)]
  have hmod : (4 * y) % 18446744073709551616 = 4 * y := by omega
  rw [hmod]
  have hP : 0 ≤ 4 * y * z := mul_nonneg (by omega) hz
  generalize 4 * y * z = P at hP hP3 ⊢
  rw [if_neg (by omega)]
  have hmodP : P % 18446744073709551616 = P := by omega
  simp only [hmodP]
  have hw : wrapInt P = P := wrapInt_eq (by omega) hP3
  rw [hw, if_neg (by omega)]

/-- `NewRGBA` returns exactly on the allocatable rectangles, among the
well-formed ones with `int` coordinates. -/
theorem NewRGBA_isSome_of_allocatable {r : Rectangle} (h : r.Allocatable) :
    ∃ p, NewRGBA r = some p := by
  obtain ⟨⟨h1, h2, h3, h4⟩, ⟨hwx, hwy⟩, hW, hH, hP⟩ := h
  unfold isInt at h1 h2 h3 h4
  have hdx : r.Dx = r.Max.X - r.Min.X := wrapInt_eq (by omega) (by omega)
  have hdy : r.Dy = r.Max.Y - r.Min.Y := wrapInt_eq (by omega) (by omega)
  have hm := mul3NonNeg_eq (y := r.Dx) (z := r.Dy) (by omega) (by omega) (by omega)
    (by rw [hdx, hdy]; exact hP)
  have hnn : 0 ≤ 4 * r.Dx * r.Dy := mul_nonneg (by omega) (by omega)
  unfold NewRGBA pixelBufferLength
  rw [hm, if_neg (by omega)]
  exact ⟨_, rfl⟩

theorem allocatable_of_NewRGBA {r : Rectangle} {p : RGBA} (hr : r.InIntRange)
    (hw : r.WellFormed) (h : NewRGBA r = some p) : r.Allocatable := by
  have hr0 := hr
  obtain ⟨h1, h2, h3, h4⟩ := hr
  obtain ⟨hwx, hwy⟩ := hw
  unfold isInt at h1 h2 h3 h4
  unfold NewRGBA pixelBufferLength at h
  by_cases hneg : mul3NonNeg 4 r.Dx r.Dy < 0
  · rw [if_pos hneg] at h; exact absurd h (by simp)
  obtain ⟨hx, hy, hx4, hP, _⟩ := mul3NonNeg_nonneg (y := r.Dx) (z := r.Dy) (by omega)
  have hdx : r.Dx = r.Max.X - r.Min.X := by
    unfold Rectangle.Dx wrapInt at hx ⊢
    omega
  have hdy : r.Dy = r.Max.Y - r.Min.Y := by
    unfold Rectangle.Dy wrapInt at hy ⊢
    omega
  have hyb : r.Dy < 9223372036854775808 := by
    unfold Rectangle.Dy wrapInt
    omega
  rw [hdx, hdy] at hP
  exact ⟨hr0, ⟨hwx, hwy⟩, by omega, by omega, hP⟩

theorem NewRGBA_valid {r : Rectangle} {p : RGBA} (hr : r.InIntRange) (h : NewRGBA r = some p) :
    p.Valid ∧ p.Rect = r ∧ ∀ i, p.Pix.getD i 0 = 0 := by
  obtain ⟨h1, h2, h3, h4⟩ := hr
  unfold isInt at h1 h2 h3 h4
  unfold NewRGBA pixelBufferLength at h
  by_cases hneg : mul3NonNeg 4 r.Dx r.Dy < 0
  · rw [if_pos hneg] at h; exact absurd h (by simp)
  rw [if_neg hneg] at h
  obtain ⟨hx, hy, hx4, hP, hm⟩ := mul3NonNeg_nonneg (y := r.Dx) (z := r.Dy) (by omega)
  have hp : p = _ := (Option.some.inj h).symm
  subst hp
  refine ⟨?_, rfl, ?_⟩
  · by_cases hex : r.Max.X ≤ r.Min.X
    · exact Or.inl hex
    by_cases hey : r.Max.Y ≤ r.Min.Y
    · exact Or.inr (Or.inl hey)
    refine Or.inr (Or.inr ?_)
    have hdx : r.Dx = r.Max.X - r.Min.X := by
      unfold Rectangle.Dx wrapInt at hx ⊢
      omega
    have hdy : r.Dy = r.Max.Y - r.Min.Y := by
      unfold Rectangle.Dy wrapInt at hy ⊢
      omega
    rw [hdx, hdy] at hP hm
    have hW : 0 < r.Max.X - r.Min.X := by omega
    have hH : 1 ≤ r.Max.Y - r.Min.Y := by omega
    have h4W : 4 * (r.Max.X - r.Min.X) ≤ 4 * (r.Max.X - r.Min.X) * (r.Max.Y - r.Min.Y) := by
      have := mul_le_mul_of_nonneg_left hH (show (0 : Int) ≤ 4 * (r.Max.X - r.Min.X) by omega)
      simpa using this
    have hnn : 0 ≤ 4 * (r.Max.X - r.Min.X) * (r.Max.Y - r.Min.Y) := by omega
    refine ⟨?_, ?_, hP⟩
    · show wrapInt (4 * r.Dx) = _
      rw [hdx]
      exact wrapInt_eq (by omega) (by omega)
    · show ((List.replicate (mul3NonNeg 4 r.Dx r.Dy).toNat 0).length : Int) = _
      rw [hdx, hdy, hm, List.length_replicate, Int.toNat_of_nonneg hnn]
  · intro i
    simp only [List.getD_eq_getElem?_getD, List.getElem?_replicate]
    split <;> simp

/-- Inside a valid image the offset of an in-bounds point does not wrap, and the
four bytes of the pixel lie inside the buffer. -/
theorem PixOffset_bounds {p : RGBA} (hv : p.Valid) {x y : Int}
    (hin : (Point.mk x y).In p.Rect) :
    p.PixOffset x y
        = (y - p.Rect.Min.Y) * (4 * (p.Rect.Max.X - p.Rect.Min.X)) + (x - p.Rect.Min.X) * 4 ∧
      0 ≤ p.PixOffset x y ∧ p.PixOffset x y + 4 ≤ (p.Pix.length : Int) := by
  obtain ⟨h1, h2, h3, h4⟩ := hin
  simp only at h1 h2 h3 h4
  rcases hv with hv | hv | ⟨hs, hl, hfit⟩
  · omega
  · omega
  have hdx : 0 ≤ p.Rect.Max.X - p.Rect.Min.X := by omega
  have ha : 0 ≤ (y - p.Rect.Min.Y) * (p.Rect.Max.X - p.Rect.Min.X) :=
    mul_nonneg (by omega) hdx
  have hb : (y - p.Rect.Min.Y + 1) * (p.Rect.Max.X - p.Rect.Min.X)
      ≤ (p.Rect.Max.Y - p.Rect.Min.Y) * (p.Rect.Max.X - p.Rect.Min.X) :=
    mul_le_mul_of_nonneg_right (by omega) hdx
  have hlo : 0 ≤ (y - p.Rect.Min.Y) * (4 * (p.Rect.Max.X - p.Rect.Min.X))
      + (x - p.Rect.Min.X) * 4 := by nlinarith
  have hhi : (y - p.Rect.Min.Y) * (4 * (p.Rect.Max.X - p.Rect.Min.X))
      + (x - p.Rect.Min.X) * 4 + 4
        ≤ 4 * (p.Rect.Max.X - p.Rect.Min.X) * (p.Rect.Max.Y - p.Rect.Min.Y) := by nlinarith
  have he : p.PixOffset x y
      = (y - p.Rect.Min.Y) * (4 * (p.Rect.Max.X - p.Rect.Min.X)) + (x - p.Rect.Min.X) * 4 := by
    unfold RGBA.PixOffset
    rw [hs]
    exact wrapInt_eq (by omega) (by omega)
  rw [he, hl]
  exact ⟨rfl, hlo, hhi⟩

theorem PixOffset_separated {p : RGBA} (hv : p.Valid) {x y x' y' : Int}
    (hin : (Point.mk x y).In p.Rect) (hin' : (Point.mk x' y').In p.Rect)
    (hne : ¬ (x' = x ∧ y' = y)) :
    p.PixOffset x y + 4 ≤ p.PixOffset x' y' ∨ p.PixOffset x' y' + 4 ≤ p.PixOffset x y := by
  rw [(PixOffset_bounds hv hin).1, (PixOffset_bounds hv hin').1]
  obtain ⟨h1, h2, h3, h4⟩ := hin
  obtain ⟨h1', h2', h3', h4'⟩ := hin'
  simp only at h1 h2 h3 h4 h1' h2' h3' h4'
  have hdx : 0 ≤ p.Rect.Max.X - p.Rect.Min.X := by omega
  rcases lt_trichotomy y y' with hlt | heq | hgt
  · left
    have : (y - p.Rect.Min.Y + 1) * (p.Rect.Max.X - p.Rect.Min.X)
        ≤ (y' - p.Rect.Min.Y) * (p.Rect.Max.X - p.Rect.Min.X) :=
      mul_le_mul_of_nonneg_right (by omega) hdx
    nlinarith
  · subst heq
    have hx : x ≠ x' := fun h => hne ⟨h.symm, rfl⟩
    rcases lt_or_gt_of_ne hx with h | h
    · left; omega
    · right; omega
  · right
    have : (y' - p.Rect.Min.Y + 1) * (p.Rect.Max.X - p.Rect.Min.X)
        ≤ (y - p.Rect.Min.Y) * (p.Rect.Max.X - p.Rect.Min.X) :=
      mul_le_mul_of_nonneg_right (by omega) hdx
    nlinarith

theorem Set_valid {p : RGBA} (hv : p.Valid) (x y : Int) (c : Color) :
    (p.Set x y c).Valid ∧ (p.Set x y c).Rect = p.Rect := by
  unfold RGBA.Set
  split
  · exact ⟨hv, rfl⟩
  · refine ⟨?_, rfl⟩
    rcases hv with hv | hv | ⟨hs, hl, hfit⟩
    · exact Or.inl hv
    · exact Or.inr (Or.inl hv)
    · refine Or.inr (Or.inr ⟨hs, ?_, hfit⟩)
      simpa using hl

/-- Reading a pixel after writing one: the written point holds the converted
colour, every other point is unchanged. -/
theorem At_Set {p : RGBA} (hv : p.Valid) (x y : Int) (c : Color) (x' y' : Int) :
    (p.Set x y c).At x' y' =
      if (Point.mk x y).In p.Rect ∧ x' = x ∧ y' = y then
        Color.RGBA (rgbaModel c).1 (rgbaModel c).2.1 (rgbaModel c).2.2.1 (rgbaModel c).2.2.2
      else p.At x' y' := by
  by_cases hin : (Point.mk x y).In p.Rect
  swap
  · have : p.Set x y c = p := by unfold RGBA.Set; simp [hin]
    simp [this, hin]
  have hb := (PixOffset_bounds hv hin).2
  have hr : (p.Set x y c).Rect = p.Rect := (Set_valid hv x y c).2
  by_cases hin' : (Point.mk x' y').In p.Rect
  swap
  · have hne : ¬ (x' = x ∧ y' = y) := by
      rintro ⟨rfl, rfl⟩; exact hin' hin
    unfold RGBA.At
    simp [hr, hin', hne]
  have hb' := (PixOffset_bounds hv hin').2
  have hoff : ∀ a b, (p.Set x y c).PixOffset a b = p.PixOffset a b := by
    intro a b
    unfold RGBA.PixOffset
    rw [hr]
    unfold RGBA.Set
    simp [hin]
  by_cases hsame : x' = x ∧ y' = y
  · obtain ⟨rfl, rfl⟩ := hsame
    simp only [hin, true_and, and_self, if_true]
    unfold RGBA.At
    rw [hr, hoff]
    simp only [hin, not_true_eq_false, if_false]
    unfold RGBA.Set
    simp only [hin, not_true_eq_false, if_false]
    have hlen : (p.PixOffset x' y').toNat + 3 < p.Pix.length := by omega
    obtain ⟨e1, e2, e3, e4⟩ := getD_set4_eq p.Pix (p.PixOffset x' y').toNat
      (rgbaModel c).1 (rgbaModel c).2.1 (rgbaModel c).2.2.1 (rgbaModel c).2.2.2 hlen
    rw [e1, e2, e3, e4]
  · simp only [hsame, and_false, if_false]
    have hsep := PixOffset_separated hv hin hin' hsame
    unfold RGBA.At
    rw [hr, hoff]
    simp only [hin', not_true_eq_false, if_false]
    unfold RGBA.Set
    simp only [hin, not_true_eq_false, if_false]
    rw [getD_set4_ne _ _ _ _ _ _ _ (by omega), getD_set4_ne _ _ _ _ _ _ _ (by omega),
      getD_set4_ne _ _ _ _ _ _ _ (by omega), getD_set4_ne _ _ _ _ _ _ _ (by omega)]

/-! ## The loops of `grayscale` -/

/-- A loop whose every iteration overwrites the in-bounds points selected by
`S a` with the colour `G` and leaves the rest alone overwrites, in total, the
in-bounds points selected by some iteration. -/
theorem foldl_paint {α : Type} (step : RGBA → α → RGBA) (S : α → Int → Int → Prop)
    (G : Int → Int → Color)
    (hstep : ∀ im a, im.Valid → (step im a).Valid ∧ (step im a).Rect = im.Rect ∧
      ∀ x y, ((S a x y ∧ (Point.mk x y).In im.Rect) → (step im a).At x y = G x y) ∧
        (¬ (S a x y ∧ (Point.mk x y).In im.Rect) → (step im a).At x y = im.At x y)) :
    ∀ (xs : List α) (im : RGBA), im.Valid →
      (xs.foldl step im).Valid ∧ (xs.foldl step im).Rect = im.Rect ∧
      ∀ x y, (((∃ a ∈ xs, S a x y) ∧ (Point.mk x y).In im.Rect) →
          (xs.foldl step im).At x y = G x y) ∧
        (¬ ((∃ a ∈ xs, S a x y) ∧ (Point.mk x y).In im.Rect) →
          (xs.foldl step im).At x y = im.At x y) := by
  intro xs
  induction xs with
  | nil =>
    intro im hv
    refine ⟨hv, rfl, fun x y => ⟨?_, fun _ => rfl⟩⟩
    rintro ⟨⟨a, ha, _⟩, _⟩
    exact absurd ha (List.not_mem_nil a)
  | cons a xs ih =>
    intro im hv
    obtain ⟨hv1, hr1, hat1⟩ := hstep im a hv
    obtain ⟨hv2, hr2, hat2⟩ := ih (step im a) hv1
    rw [List.foldl_cons]
    refine ⟨hv2, hr2.trans hr1, fun x y => ⟨?_, ?_⟩⟩
    · rintro ⟨⟨b, hb, hS⟩, hin⟩
      by_cases hxs : ∃ b ∈ xs, S b x y
      · exact (hat2 x y).1 ⟨hxs, hr1 ▸ hin⟩
      · rw [(hat2 x y).2 (fun h => hxs h.1)]
        rcases List.mem_cons.mp hb with rfl | hb'
        · exact (hat1 x y).1 ⟨hS, hin⟩
        · exact absurd ⟨b, hb', hS⟩ hxs
    · intro hnot
      have h2 : ¬ ((∃ b ∈ xs, S b x y) ∧ (Point.mk x y).In (step im a).Rect) := by
        rintro ⟨⟨b, hb, hS⟩, hin⟩
        exact hnot ⟨⟨b, List.mem_cons_of_mem a hb, hS⟩, hr1 ▸ hin⟩
      have h1 : ¬ (S a x y ∧ (Point.mk x y).In im.Rect) := by
        rintro ⟨hS, hin⟩
        exact hnot ⟨⟨a, List.mem_cons_self a xs, hS⟩, hin⟩
      rw [(hat2 x y).2 h2, (hat1 x y).2 h1]

/-- One row of `grayscale`: the in-bounds points `(x, y)` with `0 ≤ x < Max.X`
hold the gray conversion of the source pixel, the rest is unchanged. -/
theorem grayscaleRow_spec (old : Image) (n : Nat) (im : RGBA) (hv : im.Valid) :
    (grayscaleRow old (n : Int) im).Valid ∧ (grayscaleRow old (n : Int) im).Rect = im.Rect ∧
    ∀ x y, ((((0 ≤ x ∧ x < old.Bounds.Max.X) ∧ y = (n : Int)) ∧ (Point.mk x y).In im.Rect) →
        (grayscaleRow old (n : Int) im).At x y = grayPixel (old.At x y)) ∧
      (¬ (((0 ≤ x ∧ x < old.Bounds.Max.X) ∧ y = (n : Int)) ∧ (Point.mk x y).In im.Rect) →
        (grayscaleRow old (n : Int) im).At x y = im.At x y) := by
  have key := foldl_paint
    (fun (im : RGBA) (a : Nat) => im.Set (a : Int) (n : Int) (gray16Model (old.At (a : Int) (n : Int))))
    (fun a x y => x = (a : Int) ∧ y = (n : Int))
    (fun x y => grayPixel (old.At x y))
    (by
      intro im a hv
      refine ⟨(Set_valid hv _ _ _).1, (Set_valid hv _ _ _).2, fun x y => ⟨?_, ?_⟩⟩
      · rintro ⟨⟨rfl, rfl⟩, hin⟩
        rw [At_Set hv, if_pos ⟨hin, rfl, rfl⟩]
        rfl
      · intro hnot
        rw [At_Set hv, if_neg]
        rintro ⟨hin, rfl, rfl⟩
        exact hnot ⟨⟨rfl, rfl⟩, hin⟩)
    (List.range old.Bounds.Max.X.toNat) im hv
  have hmem : ∀ x y : Int, (∃ a ∈ List.range old.Bounds.Max.X.toNat, x = (a : Int) ∧ y = (n : Int)) ↔
      ((0 ≤ x ∧ x < old.Bounds.Max.X) ∧ y = (n : Int)) := by
    intro x y
    constructor
    · rintro ⟨a, ha, rfl, rfl⟩
      have := List.mem_range.mp ha
      exact ⟨⟨by omega, by omega⟩, rfl⟩
    · rintro ⟨⟨h0, h1⟩, rfl⟩
      exact ⟨x.toNat, List.mem_range.mpr (by omega), by omega, rfl⟩
  obtain ⟨k1, k2, k3⟩ := key
  refine ⟨k1, k2, fun x y => ?_⟩
  have := k3 x y
  rw [hmem] at this
  exact this

/-- What `grayscale` returns: an image with the bounds of the source in which
the in-bounds points with non-negative coordinates hold the gray conversion of
the source pixel and every other point is the zero colour. -/
theorem grayscale_spec {old : Image} {g : RGBA} (hr : old.Bounds.InIntRange)
    (h : grayscale old = some g) :
    g.Valid ∧ g.Rect = old.Bounds ∧
    ∀ x y, (((Point.mk x y).In old.Bounds ∧ 0 ≤ x ∧ 0 ≤ y) → g.At x y = grayPixel (old.At x y)) ∧
      (¬ ((Point.mk x y).In old.Bounds ∧ 0 ≤ x ∧ 0 ≤ y) → g.At x y = Color.RGBA 0 0 0 0) := by
  unfold grayscale at h
  cases hnew : NewRGBA old.Bounds with
  | none => rw [hnew] at h; exact absurd h (by simp)
  | some new =>
    rw [hnew] at h
    have hg := (Option.some.inj h).symm
    obtain ⟨hv, hrect, hzero⟩ := NewRGBA_valid hr hnew
    have key := foldl_paint
      (fun (im : RGBA) (a : Nat) => grayscaleRow old (a : Int) im)
      (fun a x y => (0 ≤ x ∧ x < old.Bounds.Max.X) ∧ y = (a : Int))
      (fun x y => grayPixel (old.At x y))
      (fun im a hv => grayscaleRow_spec old a im hv)
      (List.range old.Bounds.Max.Y.toNat) new hv
    rw [← hg] at key
    obtain ⟨k1, k2, k3⟩ := key
    have hnewAt : ∀ x y, new.At x y = Color.RGBA 0 0 0 0 := by
      intro x y
      unfold RGBA.At
      split
      · rfl
      · simp only [hzero]
    refine ⟨k1, k2.trans hrect, fun x y => ⟨?_, ?_⟩⟩
    · rintro ⟨hin, hx, hy⟩
      apply (k3 x y).1
      refine ⟨⟨y.toNat, List.mem_range.mpr ?_, ⟨hx, hin.2.1⟩, ?_⟩, hrect ▸ hin⟩
      · have := hin.2.2.2
        simp only at this
        omega
      · omega
    · intro hnot
      rw [(k3 x y).2, hnewAt]
      rintro ⟨⟨a, ha, ⟨hx, _⟩, rfl⟩, hin⟩
      exact hnot ⟨hrect ▸ hin, hx, by omega⟩


/-! ## Arithmetic of the gray conversion -/

theorem or_shift8 (v : Nat) (h : v < 256) : v ||| (v <<< 8) = 257 * v := by
  interval_cases v <;> rfl

theorem grayPixel_fixed (v : Nat) (h : v < 256) :
    grayPixel (Color.RGBA v v v 255) = Color.RGBA v v v 255 := by
  interval_cases v <;> rfl

theorem grayPixel_form (c : Color) : ∃ v, v < 256 ∧ grayPixel c = Color.RGBA v v v 255 := by
  cases c with
  | Gray16 Y =>
    exact ⟨((Y % 65536) >>> 8) % 256, Nat.mod_lt _ (by norm_num), rfl⟩
  | RGBA R G B A =>
    exact ⟨_, Nat.mod_lt _ (by norm_num), rfl⟩
  | Other r g b a =>
    exact ⟨_, Nat.mod_lt _ (by norm_num), rfl⟩

theorem grayPixel_idem (c : Color) : grayPixel (grayPixel c) = grayPixel c := by
  obtain ⟨v, hv, hc⟩ := grayPixel_form c
  rw [hc, grayPixel_fixed v hv]

theorem rgba_lt (c : Color) (h : c.WellFormed) :
    c.rgba.1 < 65536 ∧ c.rgba.2.1 < 65536 ∧ c.rgba.2.2.1 < 65536 ∧ c.rgba.2.2.2 < 65536 := by
  cases c with
  | Gray16 Y =>
    simp only [Color.rgba]
    refine ⟨?_, ?_, ?_, ?_⟩ <;> omega
  | RGBA R G B A =>
    simp only [Color.rgba]
    rw [or_shift8 _ (Nat.mod_lt _ (by norm_num)), or_shift8 _ (Nat.mod_lt _ (by norm_num)),
      or_shift8 _ (Nat.mod_lt _ (by norm_num)), or_shift8 _ (Nat.mod_lt _ (by norm_num))]
    refine ⟨?_, ?_, ?_, ?_⟩ <;> omega
  | Other r g b a =>
    obtain ⟨h1, h2, h3, h4⟩ := h
    simp only [Color.rgba]
    refine ⟨?_, ?_, ?_, ?_⟩ <;> omega

/-- The value `grayscale` stores, in closed form, for a colour whose channels
are 16-bit. -/
theorem grayPixel_formula (c : Color)
    (hr : c.rgba.1 < 65536) (hg : c.rgba.2.1 < 65536) (hb : c.rgba.2.2.1 < 65536) :
    grayPixel c =
      Color.RGBA
        (((19595 * c.rgba.1 + 38470 * c.rgba.2.1 + 7471 * c.rgba.2.2.1 + 32768) >>> 16) >>> 8)
        (((19595 * c.rgba.1 + 38470 * c.rgba.2.1 + 7471 * c.rgba.2.2.1 + 32768) >>> 16) >>> 8)
        (((19595 * c.rgba.1 + 38470 * c.rgba.2.1 + 7471 * c.rgba.2.2.1 + 32768) >>> 16) >>> 8)
        255 := by
  have key : ∀ r g b : Nat, r < 65536 → g < 65536 → b < 65536 →
      ((((((19595 * r + 38470 * g + 7471 * b + (1 <<< 15)) % 2 ^ 32) >>> 16) % 65536) % 65536) >>> 8) % 256
        = ((19595 * r + 38470 * g + 7471 * b + 32768) >>> 16) >>> 8 := by
    intro r g b hr hg hb
    have e15 : (1 : Nat) <<< 15 = 32768 := rfl
    rw [e15]
    generalize hS : 19595 * r + 38470 * g + 7471 * b + 32768 = S
    have hlt : S < 4294967296 := by omega
    simp only [Nat.shiftRight_eq_div_pow]
    norm_num
    rw [Nat.mod_eq_of_lt hlt]
    have hy : S / 65536 < 65536 := by omega
    rw [Nat.mod_eq_of_lt hy]
    omega
  cases c with
  | Gray16 Y =>
    simp only [Color.rgba] at hr ⊢
    have : ((Y % 65536) >>> 8) % 256
        = ((19595 * (Y % 65536) + 38470 * (Y % 65536) + 7471 * (Y % 65536) + 32768) >>> 16) >>> 8 := by
      simp only [Nat.shiftRight_eq_div_pow]
      omega
    simp only [grayPixel, gray16Model, rgbaModel, Color.rgba]
    rw [this]
    rfl
  | RGBA R G B A =>
    have := key _ _ _ hr hg hb
    simp only [grayPixel, gray16Model, rgbaModel, Color.rgba] at this ⊢
    rw [this]
    rfl
  | Other r g b a =>
    have := key _ _ _ hr hg hb
    simp only [grayPixel, gray16Model, rgbaModel, Color.rgba] at this ⊢
    rw [this]
    rfl


/-! ## The transform -/

/-- On allocatable bounds `grayscale` returns: `image.NewRGBA` does not
panic. -/
theorem grayscale_total {old : Image} (h : old.Bounds.Allocatable) :
    ∃ g, grayscale old = some g := by
  obtain ⟨new, hnew⟩ := NewRGBA_isSome_of_allocatable h
  unfold grayscale
  rw [hnew]
  exact ⟨_, rfl⟩

/-- On well-formed bounds with `int` coordinates that are not allocatable,
`grayscale` panics. -/
theorem grayscale_panics_of_not_allocatable {old : Image} (hr : old.Bounds.InIntRange)
    (hw : old.Bounds.WellFormed) (h : ¬ old.Bounds.Allocatable) : grayscale old = none := by
  unfold grayscale
  cases hnew : NewRGBA old.Bounds with
  | none => rfl
  | some new => exact absurd (allocatable_of_NewRGBA hr hw hnew) h

/-- C4 (as stated, at an image too large to allocate): the image with the
bounds of `image.Uniform`, (-1e9,-1e9)-(1e9,1e9), is well-formed and its
coordinates are `int` values, but `4*Dx*Dy` overflows an `int`, so
`image.NewRGBA` panics: `grayscale` returns nothing, and there is no pair of
results of `grayscale` to compare. -/
theorem grayscale_idempotent_fails_on_huge_bounds :
    hugeImage.Bounds.WellFormed ∧ hugeImage.Bounds.InIntRange ∧ grayscale hugeImage = none ∧
      ¬ ∃ g1 g2, grayscale hugeImage = some g1 ∧ grayscale g1.toImage = some g2 ∧
        g2.Rect = g1.Rect ∧ ∀ x y, g2.At x y = g1.At x y := by
  have hn : grayscale hugeImage = none :=
    grayscale_panics_of_not_allocatable (by decide) (by decide) (by decide)
  refine ⟨by decide, by decide, hn, ?_⟩
  rintro ⟨g1, g2, h1, _⟩
  rw [hn] at h1
  exact absurd h1 (by simp)

/-- C4 (amended): `grayscale` is idempotent on the images it can allocate.  For
every image whose bounds are well-formed with `int` coordinates, width below
2^62, height below 2^63 and `4*Dx*Dy` below 2^63, `grayscale` returns an image,
`grayscale` of that image returns an image again, and the second has the same
bounds as the first and the same colour at every position. -/
theorem grayscale_idempotent (old : Image) (h : old.Bounds.Allocatable) :
    ∃ g1 g2, grayscale old = some g1 ∧ grayscale g1.toImage = some g2 ∧
      g2.Rect = g1.Rect ∧ g2.toImage.Bounds = g1.toImage.Bounds ∧
      ∀ x y, g2.At x y = g1.At x y := by
  obtain ⟨g1, h1⟩ := grayscale_total h
  obtain ⟨_, hr1, hat1⟩ := grayscale_spec h.1 h1
  have hal : g1.toImage.Bounds.Allocatable := by
    show g1.Rect.Allocatable
    rw [hr1]; exact h
  obtain ⟨g2, h2⟩ := grayscale_total hal
  obtain ⟨_, hr2, hat2⟩ := grayscale_spec hal.1 h2
  refine ⟨g1, g2, h1, h2, hr2, hr2, fun x y => ?_⟩
  by_cases hc : (Point.mk x y).In old.Bounds ∧ 0 ≤ x ∧ 0 ≤ y
  · have hc' : (Point.mk x y).In g1.toImage.Bounds ∧ 0 ≤ x ∧ 0 ≤ y := by
      refine ⟨?_, hc.2⟩
      show (Point.mk x y).In g1.Rect
      rw [hr1]; exact hc.1
    rw [(hat2 x y).1 hc']
    show grayPixel (g1.At x y) = g1.At x y
    rw [(hat1 x y).1 hc, grayPixel_idem]
  · have hc' : ¬ ((Point.mk x y).In g1.toImage.Bounds ∧ 0 ≤ x ∧ 0 ≤ y) := by
      intro hh
      apply hc
      refine ⟨?_, hh.2⟩
      have := hh.1
      change (Point.mk x y).In g1.Rect at this
      rw [hr1] at this; exact this
    rw [(hat2 x y).2 hc', (hat1 x y).2 hc]

theorem grayscale_idempotent_witness :
    ∃ g1 g2, grayscale redImage = some g1 ∧ grayscale g1.toImage = some g2 ∧
      g2.Rect = g1.Rect ∧ g2.toImage.Bounds = g1.toImage.Bounds ∧
      ∀ x y, g2.At x y = g1.At x y :=
  grayscale_idempotent redImage (by decide)

/-- C5 (the code at an image whose bounds start below zero): for the 2x2 white
image with bounds (-1,-1)-(1,1), `grayscale` keeps the bounds, but the in-bounds
position (-1,-1) is never written: it holds the zero colour, while the gray
conversion of the source pixel there is (255,255,255,255).  Only (0,0) is
written. -/
theorem grayscale_skips_negative_coordinates :
    ∃ g, grayscale offsetImage = some g ∧ g.Rect = offsetImage.Bounds ∧
      (Point.mk (-1) (-1)).In offsetImage.Bounds ∧
      g.At (-1) (-1) = Color.RGBA 0 0 0 0 ∧
      grayPixel (offsetImage.At (-1) (-1)) = Color.RGBA 255 255 255 255 ∧
      g.At 0 0 = Color.RGBA 255 255 255 255 :=
  ⟨_, rfl, rfl, by decide, rfl, rfl, rfl⟩

/-- For an image with allocatable bounds that start at non-negative
coordinates, `grayscale` keeps the bounds and writes every in-bounds position
with the gray conversion of the source pixel. -/
theorem grayscale_covers_nonneg_bounds (old : Image) (h : old.Bounds.Allocatable)
    (hx : 0 ≤ old.Bounds.Min.X) (hy : 0 ≤ old.Bounds.Min.Y) :
    ∃ g, grayscale old = some g ∧ g.Rect = old.Bounds ∧
      ∀ x y, (Point.mk x y).In old.Bounds → g.At x y = grayPixel (old.At x y) := by
  obtain ⟨g, hg⟩ := grayscale_total h
  obtain ⟨_, hr, hat⟩ := grayscale_spec h.1 hg
  refine ⟨g, hg, hr, fun x y hin => (hat x y).1 ⟨hin, ?_, ?_⟩⟩
  · have := hin.1; simp only at this; omega
  · have := hin.2.2.1; simp only at this; omega

/-- C10 (as stated, at an image too large to allocate): in the image with
bounds (-1e9,-1e9)-(1e9,1e9) the position (0,0) lies inside the bounds, has
non-negative coordinates and a source colour with 16-bit channels, but
`image.NewRGBA` panics on these bounds: `grayscale` returns nothing, so there
is no output pixel at (0,0). -/
theorem grayscale_no_output_on_huge_bounds :
    (Point.mk 0 0).In hugeImage.Bounds ∧ hugeImage.Bounds.InIntRange ∧
      (hugeImage.At 0 0).rgba.1 < 65536 ∧ (hugeImage.At 0 0).rgba.2.1 < 65536 ∧
      (hugeImage.At 0 0).rgba.2.2.1 < 65536 ∧ grayscale hugeImage = none ∧
      ¬ ∃ g, grayscale hugeImage = some g ∧ g.At 0 0 = Color.RGBA 255 255 255 255 := by
  have hn : grayscale hugeImage = none :=
    grayscale_panics_of_not_allocatable (by decide) (by decide) (by decide)
  refine ⟨by decide, by decide, by decide, by decide, by decide, hn, ?_⟩
  rintro ⟨g, h1, _⟩
  rw [hn] at h1
  exact absurd h1 (by simp)

/-- C10 (amended): `grayscale` discards the source alpha on the images it can
allocate.  For every image whose bounds are allocatable (well-formed, `int`
coordinates, width below 2^62, height below 2^63, `4*Dx*Dy` below 2^63) and
every position (x, y) inside the bounds with 0 ≤ x and 0 ≤ y, where the source
colour has 16-bit channels (r, g, b, _), `grayscale` returns an image whose
pixel there is (v, v, v, 255) with
v = ((19595*r + 38470*g + 7471*b + 32768) >> 16) >> 8; in particular a fully
transparent source pixel becomes opaque black. -/
theorem grayscale_discards_alpha (old : Image) (x y : Int) (hal : old.Bounds.Allocatable)
    (hin : (Point.mk x y).In old.Bounds) (hx : 0 ≤ x) (hy : 0 ≤ y)
    (hr : (old.At x y).rgba.1 < 65536) (hg : (old.At x y).rgba.2.1 < 65536)
    (hb : (old.At x y).rgba.2.2.1 < 65536) :
    ∃ g, grayscale old = some g ∧
      g.At x y =
        Color.RGBA
          (((19595 * (old.At x y).rgba.1 + 38470 * (old.At x y).rgba.2.1
              + 7471 * (old.At x y).rgba.2.2.1 + 32768) >>> 16) >>> 8)
          (((19595 * (old.At x y).rgba.1 + 38470 * (old.At x y).rgba.2.1
              + 7471 * (old.At x y).rgba.2.2.1 + 32768) >>> 16) >>> 8)
          (((19595 * (old.At x y).rgba.1 + 38470 * (old.At x y).rgba.2.1
              + 7471 * (old.At x y).rgba.2.2.1 + 32768) >>> 16) >>> 8)
          255 ∧
      ((old.At x y).rgba = (0, 0, 0, 0) → g.At x y = Color.RGBA 0 0 0 255) := by
  obtain ⟨g, hgs⟩ := grayscale_total hal
  obtain ⟨_, _, hat⟩ := grayscale_spec hal.1 hgs
  have e := (hat x y).1 ⟨hin, hx, hy⟩
  refine ⟨g, hgs, ?_, ?_⟩
  · rw [e, grayPixel_formula _ hr hg hb]
  · intro hz
    rw [e, grayPixel_formula _ hr hg hb, hz]
    rfl

theorem grayscale_discards_alpha_witness :
    ∃ g, grayscale { Bounds := ⟨⟨0, 0⟩, ⟨2, 2⟩⟩, At := fun _ _ => Color.Other 0 0 0 0 } = some g ∧
      g.At 1 1 = Color.RGBA 0 0 0 255 :=
  match grayscale_discards_alpha
      { Bounds := ⟨⟨0, 0⟩, ⟨2, 2⟩⟩, At := fun _ _ => Color.Other 0 0 0 0 } 1 1
      (by decide) (by decide) (by decide) (by decide) (by decide) (by decide) (by decide) with
  | ⟨g, h1, _, h3⟩ => ⟨g, h1, h3 rfl⟩

/-! ## The pipeline and the handler -/

/-- On the two paths of `convert` that pass the status check (decode failure
and success) the body is closed once. -/
theorem convert_closes_body_on_200 (cd : Codec) (res : Response) (r : conversionResult)
    (res1 : Option Response) (hs : res.StatusCode = 200)
    (h : convert cd (some res) none = some (r, res1)) :
    res1 = some { res with Body := res.Body.Close } ∧
      (res.Body.Close).closed = res.Body.closed + 1 := by
  obtain ⟨code, body⟩ := res
  simp only at hs
  subst hs
  unfold convert at h
  simp only [ne_eq, not_true_eq_false, if_false] at h
  refine ⟨?_, rfl⟩
  cases hd : cd.Decode body with
  | error e =>
    rw [hd] at h
    simp only [Option.some.injEq, Prod.mk.injEq] at h
    exact h.2.symm
  | ok p =>
    obtain ⟨img, format⟩ := p
    rw [hd] at h
    simp only at h
    cases hg : grayscale img with
    | none => rw [hg] at h; exact absurd h (by simp)
    | some g =>
      rw [hg] at h
      simp only [Option.some.injEq, Prod.mk.injEq] at h
      exact h.2.symm

theorem empty_append_string (b : String) : "" ++ b = b := by simp

/-- C1 (the code as written): a conversion result carrying a transport failure,
or a decode failure, with message msg goes through the branch
`if result.err != nil` of `handleGetImage`, which answers 400; the response has
status 400 and body msg, not status 500. -/
theorem handleGetImage_transport_or_decode_failure_status :
    (∀ (cd : Codec) (res : Option Response) (msg : String),
      ∃ w, handleGetImage cd ResponseWriter.fresh none SelectCase.done res
          (some (GoError.other msg)) = some w ∧
        w.status = some 400 ∧ w.body = msg) ∧
    (∀ (cd : Codec) (body : ReadCloser) (msg : String),
      ∃ w, handleGetImage { cd with Decode := fun _ => Except.error msg } ResponseWriter.fresh
          none SelectCase.done (some { StatusCode := 200, Body := body }) none = some w ∧
        w.status = some 400 ∧ w.body = msg) :=
  ⟨fun _ _ msg => ⟨_, rfl, rfl, empty_append_string msg⟩,
   fun _ _ msg => ⟨_, rfl, rfl, empty_append_string msg⟩⟩

/-- C2: for every origin response whose status is not 200 and whose body reads
fully as the text b, `convert` returns a result whose error is an
`originResponseError` with message b, and `handleGetImage` (the completion
being observed) responds with status 400 and body b, and sets no header. -/
theorem origin_error_is_bad_request (cd : Codec) (res : Response) (b : String)
    (hs : res.StatusCode ≠ 200) (hread : ReadAll res.Body = .ok b) :
    (∃ r res1, convert cd (some res) none = some (r, res1) ∧
      r.err = some (GoError.originResponseError b) ∧
      (GoError.originResponseError b).Error = b) ∧
    ∃ w, handleGetImage cd ResponseWriter.fresh none SelectCase.done (some res) none = some w ∧
      w.status = some 400 ∧ w.body = b ∧ w.header = [] := by
  have hc : convert cd (some res) none =
      some ({ converted := { image := none, format := "" },
              err := some (.originResponseError b) }, some res) := by
    unfold convert
    simp only [hs, ne_eq, not_false_eq_true, if_true, hread]
  refine ⟨⟨_, _, hc, rfl, rfl⟩, ?_⟩
  unfold handleGetImage sendOriginRequest
  rw [hc]
  exact ⟨_, rfl, rfl, empty_append_string b, rfl⟩

theorem origin_error_is_bad_request_witness :
    (∃ r res1, convert exampleCodec
        (some { StatusCode := 404, Body := { content := "not found", readErr := none, closed := 0 } })
        none = some (r, res1) ∧
      r.err = some (GoError.originResponseError "not found") ∧
      (GoError.originResponseError "not found").Error = "not found") ∧
    ∃ w, handleGetImage exampleCodec ResponseWriter.fresh none SelectCase.done
        (some { StatusCode := 404, Body := { content := "not found", readErr := none, closed := 0 } })
        none = some w ∧
      w.status = some 400 ∧ w.body = "not found" ∧ w.header = [] :=
  origin_error_is_bad_request exampleCodec
    { StatusCode := 404, Body := { content := "not found", readErr := none, closed := 0 } }
    "not found" (by decide) rfl

/-- C3: when the select takes `case <-ctx.Done()`, `convertWithContext` returns
the zero `conversionResult` with the non-nil error `ctx.Err()`, and
`handleGetImage` responds with status 408, that error's text as body and no
header, whatever the origin returned and whatever the background task sends;
when it takes `case r := <-done`, `convertWithContext` returns r with a nil
error. -/
theorem timeout_outcome :
    (∀ sent : Option conversionResult,
      convertWithContext SelectCase.ctxDone sent
        = some (conversionResult.zero, some DeadlineExceeded)) ∧
    (∀ (cd : Codec) (res : Option Response) (fetchErr : Option GoError),
      ∃ w, handleGetImage cd ResponseWriter.fresh none SelectCase.ctxDone res fetchErr = some w ∧
        w.status = some 408 ∧ w.body = DeadlineExceeded.Error ∧ w.header = []) ∧
    (∀ r : conversionResult, convertWithContext SelectCase.done (some r) = some (r, none)) :=
  ⟨fun _ => rfl, fun _ _ _ => ⟨_, rfl, rfl, by decide, rfl⟩, fun _ => rfl⟩

theorem WriteHeader_header (w : ResponseWriter) (code : Nat) :
    (w.WriteHeader code).header = w.header := by
  unfold ResponseWriter.WriteHeader
  split <;> rfl

theorem Write_header (w : ResponseWriter) (b : String) : (w.Write b).1.header = w.header := by
  unfold ResponseWriter.Write
  cases h : (w.WriteHeader 200).writeErr with
  | none => simp only [h]; exact WriteHeader_header w 200
  | some e => simp only [h]; exact WriteHeader_header w 200

theorem writeConvertedImage_content_type (w : ResponseWriter) (format len buf : String) :
    (((w.SetHeader "Content-Type" ("image/" ++ format)).SetHeader "Content-Length" len).Write
      buf).1.GetHeader "Content-Type" = some ("image/" ++ format) := by
  unfold ResponseWriter.GetHeader
  rw [Write_header]
  simp [ResponseWriter.SetHeader]

/-- C6: for a response with status 200 whose body decodes, with format "png",
to the 10x10 image with bounds (0,0)-(10,10) whose every pixel is opaque red
(255, 0, 0, 255), `convert` succeeds with format "png" and a 10x10 image whose
pixel at every position is (76, 76, 76, 255), the Gray16 value of red being
19595; and once `png.Encode` succeeds on it, `writeConvertedImage` sets
Content-Type to "image/png". -/
theorem red_png_end_to_end (cd : Codec) (res : Response) (img : Image)
    (hs : res.StatusCode = 200) (hd : cd.Decode res.Body = .ok (img, "png"))
    (hb : img.Bounds = ⟨⟨0, 0⟩, ⟨10, 10⟩⟩)
    (hred : ∀ x y, (Point.mk x y).In img.Bounds → img.At x y = Color.RGBA 255 0 0 255) :
    ∃ r res1 im, convert cd (some res) none = some (r, res1) ∧ r.err = none ∧
      r.converted.format = "png" ∧ r.converted.image = some im ∧
      im.Bounds = ⟨⟨0, 0⟩, ⟨10, 10⟩⟩ ∧ im.Bounds.Dx = 10 ∧ im.Bounds.Dy = 10 ∧
      (∀ x y, (Point.mk x y).In im.Bounds → im.At x y = Color.RGBA 76 76 76 255) ∧
      gray16Model (Color.RGBA 255 0 0 255) = Color.Gray16 19595 ∧
      ∀ (w : ResponseWriter) (png : String), cd.pngEncode (some im) = .ok png →
        (writeConvertedImage cd w (some im) "png").1.GetHeader "Content-Type"
          = some "image/png" := by
  have hal : img.Bounds.Allocatable := by rw [hb]; decide
  obtain ⟨g, hg, hr, hat⟩ := grayscale_covers_nonneg_bounds img hal
    (by rw [hb]) (by rw [hb])
  have hc : convert cd (some res) none =
      some ({ converted := { image := some g.toImage, format := "png" }, err := none },
            some { res with Body := res.Body.Close }) := by
    unfold convert
    simp only [hs, ne_eq, not_true_eq_false, if_false, hd, hg]
  have hbounds : g.toImage.Bounds = ⟨⟨0, 0⟩, ⟨10, 10⟩⟩ := hr.trans hb
  refine ⟨_, _, g.toImage, hc, rfl, rfl, rfl, hbounds, ?_, ?_, ?_, rfl, ?_⟩
  · rw [hbounds]; rfl
  · rw [hbounds]; rfl
  · intro x y hin
    have hin' : (Point.mk x y).In img.Bounds := by
      rw [hb]; rw [hbounds] at hin; exact hin
    show g.At x y = _
    rw [hat x y hin', hred x y hin']
    rfl
  · intro w png hpng
    unfold writeConvertedImage
    simp only [hpng, if_neg (show ¬ ("png" = "jpeg") by decide), if_true]
    exact writeConvertedImage_content_type w "png" _ png

theorem red_png_end_to_end_witness :
    ∃ r res1 im, convert exampleCodec
        (some { StatusCode := 200, Body := { content := "RED", readErr := none, closed := 0 } })
        none = some (r, res1) ∧ r.err = none ∧
      r.converted.format = "png" ∧ r.converted.image = some im ∧
      im.Bounds = ⟨⟨0, 0⟩, ⟨10, 10⟩⟩ ∧ im.Bounds.Dx = 10 ∧ im.Bounds.Dy = 10 ∧
      (∀ x y, (Point.mk x y).In im.Bounds → im.At x y = Color.RGBA 76 76 76 255) ∧
      gray16Model (Color.RGBA 255 0 0 255) = Color.Gray16 19595 ∧
      ∀ (w : ResponseWriter) (png : String), exampleCodec.pngEncode (some im) = .ok png →
        (writeConvertedImage exampleCodec w (some im) "png").1.GetHeader "Content-Type"
          = some "image/png" :=
  red_png_end_to_end exampleCodec
    { StatusCode := 200, Body := { content := "RED", readErr := none, closed := 0 } }
    redImage rfl rfl rfl (fun _ _ _ => rfl)

theorem append_empty_string (b : String) : b ++ "" = b := by simp

/-- C7 (the code as written): for a format tag other than "jpeg" and "png" the
switch of `writeConvertedImage` matches no case; on a writer that has sent
nothing and whose connection works, the function returns a nil error, sets
Content-Type to "image/" followed by the tag and Content-Length to "0", and
sends status 200 with no body bytes; `handleGetImage`, given a decoded image
with that tag (one that `grayscale` can allocate), therefore responds with
status 200, not 500. -/
theorem writeConvertedImage_unsupported_format (cd : Codec) (w : ResponseWriter)
    (img : Option Image) (format : String) (hj : format ≠ "jpeg") (hp : format ≠ "png")
    (hst : w.status = none) (hwe : w.writeErr = none) :
    (writeConvertedImage cd w img format).2 = none ∧
      (writeConvertedImage cd w img format).1.status = some 200 ∧
      (writeConvertedImage cd w img format).1.GetHeader "Content-Type"
        = some ("image/" ++ format) ∧
      (writeConvertedImage cd w img format).1.GetHeader "Content-Length" = some "0" ∧
      (writeConvertedImage cd w img format).1.body = w.body ∧
      ∀ (res : Response) (im : Image), res.StatusCode = 200 →
        cd.Decode res.Body = .ok (im, format) → im.Bounds.Allocatable →
        ∃ w1, handleGetImage cd ResponseWriter.fresh none SelectCase.done (some res) none
            = some w1 ∧ w1.status = some 200 ∧ w1.body = "" := by
  have hw : ∀ (w : ResponseWriter) (img : Option Image), w.status = none → w.writeErr = none →
      writeConvertedImage cd w img format =
        ({ header := (("Content-Length", "0") ::
              ((("Content-Type", "image/" ++ format) ::
                w.header.filter (fun kv => kv.1 != "Content-Type")).filter
                  (fun kv => kv.1 != "Content-Length"))),
           status := some 200, body := w.body ++ "", writeErr := none }, none) := by
    intro w img hst hwe
    unfold writeConvertedImage
    simp only [if_neg hj, if_neg hp]
    unfold ResponseWriter.Write ResponseWriter.WriteHeader ResponseWriter.SetHeader
    simp only [hst, hwe]
    rfl
  refine ⟨?_, ?_, ?_, ?_, ?_, ?_⟩
  · rw [hw w img hst hwe]
  · rw [hw w img hst hwe]
  · unfold writeConvertedImage
    simp only [if_neg hj, if_neg hp]
    exact writeConvertedImage_content_type w format _ ""
  · rw [hw w img hst hwe]
    simp [ResponseWriter.GetHeader]
  · rw [hw w img hst hwe]
    exact append_empty_string w.body
  · intro res im hs hd hal
    obtain ⟨g, hg⟩ := grayscale_total hal
    have hc : convert cd (some res) none =
        some ({ converted := { image := some g.toImage, format := format }, err := none },
              some { res with Body := res.Body.Close }) := by
      unfold convert
      simp only [hs, ne_eq, not_true_eq_false, if_false, hd, hg]
    unfold handleGetImage sendOriginRequest
    rw [hc]
    simp only [Option.map_some', convertWithContext]
    rw [hw ResponseWriter.fresh (some g.toImage) rfl rfl]
    exact ⟨_, rfl, rfl, append_empty_string _⟩

theorem writeConvertedImage_unsupported_format_witness :
    (writeConvertedImage exampleCodec ResponseWriter.fresh (some redImage) "gif").2 = none ∧
      (writeConvertedImage exampleCodec ResponseWriter.fresh (some redImage) "gif").1.status
        = some 200 ∧
      (writeConvertedImage exampleCodec ResponseWriter.fresh (some redImage) "gif").1.GetHeader
        "Content-Type" = some "image/gif" :=
  match writeConvertedImage_unsupported_format exampleCodec ResponseWriter.fresh (some redImage)
      "gif" (by decide) (by decide) rfl rfl with
  | ⟨h1, h2, h3, _⟩ => ⟨h1, h2, h3⟩

/-- C8 (the code as written): on the path of `convert` for a status other than
200 the function returns before `defer res.Body.Close()` is reached; for a 404
response whose body has never been closed, the body after `convert` still has
close count 0, whether or not reading it succeeds. -/
theorem convert_non200_never_closes_body :
    ∀ (cd : Codec) (content : String) (readErr : Option String),
      ∃ r, convert cd
          (some { StatusCode := 404,
                  Body := { content := content, readErr := readErr, closed := 0 } }) none
        = some (r, some { StatusCode := 404,
                          Body := { content := content, readErr := readErr, closed := 0 } }) := by
  intro cd content readErr
  cases readErr with
  | none => exact ⟨_, rfl⟩
  | some e => exact ⟨_, rfl⟩

/-! ## The handoff -/

theorem Handoff.inv_step (produced : conversionResult) (a : Action) (s s1 : Handoff)
    (hinv : s.Inv) (h : Handoff.step produced a s = some s1) :
    s1.Inv ∧ (s.coordinator.timedOut = true → s1.coordinator.timedOut = true) := by
  obtain ⟨hcap, hbuf, hex⟩ := hinv
  obtain ⟨e, d, c, p⟩ := s
  obtain ⟨cap, buf⟩ := d
  simp only at hcap hbuf hex
  subst hcap hbuf
  cases a with
  | expire =>
    simp only [Handoff.step] at h
    split at h
    · exact absurd h (by simp)
    · cases h; exact ⟨⟨rfl, rfl, hex⟩, id⟩
  | compute =>
    cases p with
    | running => cases h; exact ⟨⟨rfl, rfl, fun hh => absurd hh (by simp [Producer.isExited])⟩, id⟩
    | sending r => exact absurd h (by simp [Handoff.step])
    | exited => exact absurd h (by simp [Handoff.step])
  | sendBuffered =>
    cases p with
    | running => exact absurd h (by simp [Handoff.step])
    | sending r => exact absurd h (by simp [Handoff.step])
    | exited => exact absurd h (by simp [Handoff.step])
  | rendezvous =>
    cases p with
    | running => exact absurd h (by simp [Handoff.step])
    | exited => exact absurd h (by simp [Handoff.step])
    | sending r =>
      cases c with
      | returned r0 e0 => exact absurd h (by simp [Handoff.step])
      | selecting =>
        cases h
        exact ⟨⟨rfl, rfl, fun _ => rfl⟩, fun hh => absurd hh (by simp [Coordinator.timedOut])⟩
  | recvBuffered =>
    cases c with
    | returned r0 e0 => exact absurd h (by simp [Handoff.step])
    | selecting => exact absurd h (by simp [Handoff.step])
  | timeout =>
    cases c with
    | returned r0 e0 => exact absurd h (by simp [Handoff.step])
    | selecting =>
      simp only [Handoff.step] at h
      split at h
      · cases h
        refine ⟨⟨rfl, rfl, ?_⟩, fun _ => rfl⟩
        intro hp
        exact absurd (hex hp) (by simp [Coordinator.received])
      · exact absurd h (by simp)

theorem Handoff.inv_run (produced : conversionResult) :
    ∀ (acts : List Action) (s s1 : Handoff), s.Inv →
      Handoff.run produced acts s = some s1 →
      s1.Inv ∧ (s.coordinator.timedOut = true → s1.coordinator.timedOut = true) := by
  intro acts
  induction acts with
  | nil =>
    intro s s1 hinv h
    cases h
    exact ⟨hinv, id⟩
  | cons a as ih =>
    intro s s1 hinv h
    simp only [Handoff.run] at h
    cases hstep : Handoff.step produced a s with
    | none => rw [hstep] at h; exact absurd h (by simp)
    | some s2 =>
      rw [hstep] at h
      have h1 := Handoff.inv_step produced a s s2 hinv hstep
      have h2 := ih s2 s1 h1.1 h
      exact ⟨h2.1, fun ht => h2.2 (h1.2 ht)⟩

theorem Handoff.inv_init : Handoff.init.Inv :=
  ⟨rfl, rfl, fun h => absurd h (by simp [Handoff.init, Producer.isExited])⟩

theorem Handoff.not_exited_of_timedOut {s : Handoff} (hinv : s.Inv)
    (ht : s.coordinator.timedOut = true) : s.producer.isExited = false := by
  cases hp : s.producer.isExited with
  | false => rfl
  | true =>
    have hr := hinv.2.2 hp
    cases hc : s.coordinator with
    | selecting => rw [hc] at hr; exact absurd hr (by simp [Coordinator.received])
    | returned r e =>
      rw [hc] at hr ht
      cases e with
      | none => exact absurd ht (by simp [Coordinator.timedOut])
      | some e => exact absurd hr (by simp [Coordinator.received])

/-- C9 (the code as written): `done` is made without a buffer, so a send
completes only by meeting the coordinator in its `select`.  In every schedule
after which `convertWithContext` has returned the timeout outcome, the
background task has not finished, and no further event lets it finish: its send
`done <- r` never completes. -/
theorem producer_blocked_after_timeout (produced : conversionResult) (acts : List Action)
    (s : Handoff) (hrun : Handoff.run produced acts Handoff.init = some s)
    (ht : s.coordinator.timedOut = true) :
    s.producer.isExited = false ∧
      ∀ (more : List Action) (s1 : Handoff), Handoff.run produced more s = some s1 →
        s1.producer.isExited = false := by
  have hinv := (Handoff.inv_run produced acts _ s Handoff.inv_init hrun).1
  refine ⟨Handoff.not_exited_of_timedOut hinv ht, fun more s1 h => ?_⟩
  have h1 := Handoff.inv_run produced more s s1 hinv h
  exact Handoff.not_exited_of_timedOut h1.1 (h1.2 ht)

theorem producer_blocked_after_timeout_witness :
    (Handoff.mk true { cap := 0, buf := [] }
        (Coordinator.returned conversionResult.zero (some DeadlineExceeded))
        (Producer.sending conversionResult.zero)).producer.isExited = false ∧
      ∀ (more : List Action) (s1 : Handoff),
        Handoff.run conversionResult.zero more
          (Handoff.mk true { cap := 0, buf := [] }
            (Coordinator.returned conversionResult.zero (some DeadlineExceeded))
            (Producer.sending conversionResult.zero)) = some s1 →
        s1.producer.isExited = false :=
  producer_blocked_after_timeout conversionResult.zero
    [Action.expire, Action.timeout, Action.compute] _ rfl rfl

/-- The `timeout` event of the transition system gives the coordinator what
`convertWithContext` returns on `case <-ctx.Done()`. -/
theorem step_timeout_agrees (produced : conversionResult) (sent : Option conversionResult)
    (d : Chan) (p : Producer) :
    convertWithContext SelectCase.ctxDone sent
        = some (conversionResult.zero, some DeadlineExceeded) ∧
      Handoff.step produced Action.timeout (Handoff.mk true d Coordinator.selecting p)
        = some (Handoff.mk true d
            (Coordinator.returned conversionResult.zero (some DeadlineExceeded)) p) :=
  ⟨rfl, rfl⟩

/-- The `rendezvous` event gives the coordinator what `convertWithContext`
returns on `case r := <-done`. -/
theorem step_rendezvous_agrees (produced r : conversionResult) (e : Bool) (cap : Nat) :
    convertWithContext SelectCase.done (some r) = some (r, none) ∧
      Handoff.step produced Action.rendezvous
          (Handoff.mk e { cap := cap, buf := [] } Coordinator.selecting (Producer.sending r))
        = some (Handoff.mk e { cap := cap, buf := [] } (Coordinator.returned r none)
            Producer.exited) :=
  ⟨rfl, rfl⟩

/-- With a buffer of one slot the same send would complete without a
receiver. -/
theorem sendBuffered_enabled_with_capacity_one (r : conversionResult) :
    ∃ s1, Handoff.step r Action.sendBuffered
        (Handoff.mk true { cap := 1, buf := [] }
          (Coordinator.returned conversionResult.zero (some DeadlineExceeded))
          (Producer.sending r)) = some s1 ∧ s1.producer.isExited = true :=
  ⟨_, rfl, rfl⟩

/-- In the state where the coordinator has timed out and the producer is at its
send, no event is enabled. -/
theorem no_step_after_timeout (produced r : conversionResult) (a : Action) :
    Handoff.step produced a
        (Handoff.mk true { cap := 0, buf := [] }
          (Coordinator.returned conversionResult.zero (some DeadlineExceeded))
          (Producer.sending r)) = none := by
  cases a <;> rfl

end ImageProxy
